import Mathlib

/-!
Verification of the CircularBuffer repository (mjshakir/CircularBuffer).

We give a shallow embedding of the three container classes of the repository,
instantiated at a numeric element type (modelled by `Int`, with the `double`
intermediate computations of the statistics modelled by `Rat`) and executed
single-threadedly: every compare-and-swap retry loop in the source succeeds on
its first iteration when there is no interference, so each loop body is
unrolled exactly once.

* `CircularBuffer.CircularBufferFixed` models
  `CircularBufferFixed<T, N>` from `src/include/CircularBufferFixed.hpp`
  (flat storage of length `N`, cursors `m_head`/`m_tail`/`m_count`, running
  aggregates `m_sum`/`m_sum_squares`).
* `CircularBuffer.CircularBufferDynamic` models
  `CircularBufferDynamic<T>` from `src/include/CircularBufferDynamic.hpp`
  (a deque guarded by one mutex; the mutex is invisible single-threadedly).
* `CircularBuffer.CircularBuffer0` models the facade `CircularBuffer<T, 0>`
  from `src/include/CircularBuffer.hpp` instantiated with the sentinel zero
  compile-time capacity, i.e. the `N == 0` member-function bodies over a
  `std::vector` of runtime length `m_max_size`.

Machine integers: all cursor arithmetic in the source is on `size_t` values
kept below the capacity by explicit `% N`; we use `Nat` with the same `%`.
Element arithmetic is modelled exactly over `Int` (the source's
`std::pow(v, 2)` is exact on the integer inputs of the claims), and
`double` statistics over `Rat`, with `std::sqrt` modelled by `Rat.sqrt`
(exact at `0` and at perfect squares, which is all the claims touch).
Destroying a trivially destructible element (`m_buffer[i].~T()` for numeric
`T`) leaves the storage slot's bytes unchanged, so the model keeps the slot
value.
-/

namespace CircularBuffer

/-- Model of `CircularBufferFixed<T, N>` for numeric `T`: capacity `N`,
cursors `m_head`, `m_tail`, live count `m_count`, running aggregates
`m_sum`, `m_sum_squares`, and the backing `std::array<T, N>` as a list. -/
structure CircularBufferFixed where
  N : Nat
  m_head : Nat
  m_tail : Nat
  m_count : Nat
  m_sum : Int
  m_sum_squares : Int
  m_buffer : List Int
deriving DecidableEq

namespace CircularBufferFixed

/-- Source `increment`: `(value + 1) % N`. -/
def increment (s : CircularBufferFixed) (value : Nat) : Nat :=
  (value + 1) % s.N

/-- Source `is_empty`: `m_count == 0`. -/
def is_empty (s : CircularBufferFixed) : Bool :=
  s.m_count == 0

/-- Source `is_full`: `m_count == N`. -/
def is_full (s : CircularBufferFixed) : Bool :=
  s.m_count == s.N

/-- Source `get_size`: reads `m_count`. -/
def get_size (s : CircularBufferFixed) : Nat :=
  s.m_count

/-- Source `pop_front_unsafe`: advance `m_head` by the CAS loop (one
iteration single-threadedly), subtract the evicted slot from the running
aggregates, destroy the slot (a no-op for numeric `T`), decrement
`m_count`. -/
def pop_front_unsafe (s : CircularBufferFixed) : CircularBufferFixed :=
  let current_head := s.m_head
  let next_head := s.increment current_head
  let v := s.m_buffer.getD current_head 0
  { s with m_head := next_head,
           m_sum := s.m_sum - v,
           m_sum_squares := s.m_sum_squares - v ^ 2,
           m_count := s.m_count - 1 }

/-- Source `insert`: read `m_tail`, compute `next_tail`, evict the oldest
element first when full, then CAS-advance `m_tail`; returns the observed
`(current_tail, next_tail)` pair together with the new state. -/
def insert (s : CircularBufferFixed) : Nat × Nat × CircularBufferFixed :=
  let current_tail := s.m_tail
  let next_tail := s.increment current_tail
  let s1 := if s.is_full then s.pop_front_unsafe else s
  (current_tail, next_tail, { s1 with m_tail := next_tail })

/-- Source `push_back(const T&)`: `insert`, write the item at the observed
tail slot, `atomic_add` the item into the aggregates, store `next_tail`
into `m_tail` (already its value) and increment `m_count`. -/
def push_back (item : Int) (s : CircularBufferFixed) : CircularBufferFixed :=
  let r := s.insert
  let current_tail := r.1
  let next_tail := r.2.1
  let s1 := r.2.2
  let s2 := { s1 with m_buffer := s1.m_buffer.set current_tail item }
  let s3 := { s2 with m_sum := s2.m_sum + item,
                      m_sum_squares := s2.m_sum_squares + item ^ 2 }
  { s3 with m_tail := next_tail, m_count := s3.m_count + 1 }

/-- Source `emplace_back`: like `push_back` but constructs in place and does
not store `m_tail` again (the CAS in `insert` already advanced it). -/
def emplace_back (item : Int) (s : CircularBufferFixed) : CircularBufferFixed :=
  let r := s.insert
  let current_tail := r.1
  let s1 := r.2.2
  let s2 := { s1 with m_buffer := s1.m_buffer.set current_tail item }
  let s3 := { s2 with m_sum := s2.m_sum + item,
                      m_sum_squares := s2.m_sum_squares + item ^ 2 }
  { s3 with m_count := s3.m_count + 1 }

/-- Source `get_top`: peek the slot at `m_head`, `nullopt` when empty. -/
def get_top (s : CircularBufferFixed) : Option Int :=
  if s.is_empty then none
  else some (s.m_buffer.getD s.m_head 0)

/-- Source `get_last`: peek the slot just behind `m_tail`, `nullopt` when
empty. -/
def get_last (s : CircularBufferFixed) : Option Int :=
  if s.is_empty then none
  else
    let tail_position := if s.m_tail = 0 then s.N - 1 else s.m_tail - 1
    some (s.m_buffer.getD tail_position 0)

/-- Source `get_top_pop`: `nullopt` when empty, otherwise CAS-advance
`m_head`, read the value at the observed head, destroy the slot,
`atomic_sub` it from the aggregates and decrement `m_count`. -/
def get_top_pop (s : CircularBufferFixed) : Option Int × CircularBufferFixed :=
  if s.is_empty then (none, s)
  else
    let current_head := s.m_head
    let next_head := s.increment current_head
    let value := s.m_buffer.getD current_head 0
    (some value,
      { s with m_head := next_head,
               m_sum := s.m_sum - value,
               m_sum_squares := s.m_sum_squares - value ^ 2,
               m_count := s.m_count - 1 })

/-- Source `pop_front`: same state change as `get_top_pop` but returns a
success boolean. -/
def pop_front (s : CircularBufferFixed) : Bool × CircularBufferFixed :=
  if s.is_empty then (false, s)
  else
    let current_head := s.m_head
    let next_head := s.increment current_head
    let value := s.m_buffer.getD current_head 0
    (true,
      { s with m_head := next_head,
               m_sum := s.m_sum - value,
               m_sum_squares := s.m_sum_squares - value ^ 2,
               m_count := s.m_count - 1 })

/-- Fuel-indexed unfolding of the source `clear` loop
`while (!is_empty()) { if (!pop_front()) break; }`; each successful
`pop_front` decrements `m_count`, so `m_count` is enough fuel. -/
def clearFuel : Nat → CircularBufferFixed → CircularBufferFixed
  | 0, s => s
  | fuel + 1, s => if s.is_empty then s else clearFuel fuel (s.pop_front).2

/-- Source `clear`: pop until empty. -/
def clear (s : CircularBufferFixed) : CircularBufferFixed :=
  clearFuel s.m_count s

/-- Source `get_sum`: `nullopt` when empty, else the running `m_sum`. -/
def get_sum (s : CircularBufferFixed) : Option Int :=
  if s.is_empty then none else some s.m_sum

/-- Source `get_mean`: `nullopt` when empty, else `m_sum / m_count` in
`double`, modelled exactly over `Rat`. -/
def get_mean (s : CircularBufferFixed) : Option Rat :=
  if s.is_empty then none
  else some ((s.m_sum : Rat) / (s.m_count : Rat))

/-- Source `get_variance`: `nullopt` when empty or `m_count < 2`, else the
computational formula `(sumsq/n - mean^2) * (n/(n-1))` with `n - 1` taken
on `size_t` as in the source. -/
def get_variance (s : CircularBufferFixed) : Option Rat :=
  if s.is_empty then none
  else if s.m_count < 2 then none
  else
    let mean := (s.get_mean).getD 0
    some (((s.m_sum_squares : Rat) / (s.m_count : Rat) - mean ^ 2) *
          ((s.m_count : Rat) / ((s.m_count - 1 : Nat) : Rat)))

/-- Source `get_standard_deviation`: `nullopt` when empty, else
`sqrt(get_variance().value_or(0.))`, the square root modelled by
`Rat.sqrt` (exact at the perfect squares the claims evaluate). -/
def get_standard_deviation (s : CircularBufferFixed) : Option Rat :=
  if s.is_empty then none
  else some (Rat.sqrt ((s.get_variance).getD 0))

/-- Source `get_min`: `nullopt` when empty, else
`*std::min_element(m_buffer.begin(), m_buffer.begin() + m_count)` — the
minimum of the first `m_count` raw storage slots. -/
def get_min (s : CircularBufferFixed) : Option Int :=
  if s.is_empty then none else (s.m_buffer.take s.m_count).min?

/-- Source `get_max`: `nullopt` when empty, else the maximum of the first
`m_count` raw storage slots. -/
def get_max (s : CircularBufferFixed) : Option Int :=
  if s.is_empty then none else (s.m_buffer.take s.m_count).max?

/-- Source `get_sorted`: `nullopt` when empty, else a copy of the backing
array with its first `m_count` slots sorted ascending (the sort algorithm
itself is interchangeable per the spec; we use insertion sort). -/
def get_sorted (s : CircularBufferFixed) : Option (List Int) :=
  if s.is_empty then none
  else some ((s.m_buffer.take s.m_count).insertionSort (· ≤ ·) ++
             s.m_buffer.drop s.m_count)

/-- Source `get_reverse_sorted`: as `get_sorted` but descending. -/
def get_reverse_sorted (s : CircularBufferFixed) : Option (List Int) :=
  if s.is_empty then none
  else some ((s.m_buffer.take s.m_count).insertionSort (· ≥ ·) ++
             s.m_buffer.drop s.m_count)

/-- Source `get_median`: `nullopt` when empty; a single element is returned
directly; otherwise `std::nth_element` positions over the whole backing
array are modelled by indexing its full sorted copy. -/
def get_median (s : CircularBufferFixed) : Option Rat :=
  if s.is_empty then none
  else
    let count := s.m_count
    let half_count := count / 2
    if count = 1 then some ((s.m_buffer.getD 0 0 : Int) : Rat)
    else
      let sorted_buffer := s.m_buffer.insertionSort (· ≤ ·)
      if count % 2 = 0 then
        some ((((sorted_buffer.getD half_count 0 : Int) : Rat) +
               ((sorted_buffer.getD (half_count - 1) 0 : Int) : Rat)) / 2)
      else some ((sorted_buffer.getD half_count 0 : Int) : Rat)

/-- Public wrapper `push`. -/
def push (item : Int) (s : CircularBufferFixed) : CircularBufferFixed :=
  s.push_back item

/-- Public wrapper `emplace`. -/
def emplace (item : Int) (s : CircularBufferFixed) : CircularBufferFixed :=
  s.emplace_back item

/-- Public wrapper `pop`. -/
def pop (s : CircularBufferFixed) : Bool × CircularBufferFixed :=
  s.pop_front

/-- Public wrapper `top`. -/
def top (s : CircularBufferFixed) : Option Int :=
  s.get_top

/-- Public wrapper `last`. -/
def last (s : CircularBufferFixed) : Option Int :=
  s.get_last

/-- Public wrapper `top_pop`. -/
def top_pop (s : CircularBufferFixed) : Option Int × CircularBufferFixed :=
  s.get_top_pop

/-- Public wrapper `empty`. -/
def empty (s : CircularBufferFixed) : Bool :=
  s.is_empty

/-- Public wrapper `size`. -/
def size (s : CircularBufferFixed) : Nat :=
  s.get_size

/-- Public wrapper `reset`. -/
def reset (s : CircularBufferFixed) : CircularBufferFixed :=
  s.clear

/-- Public wrapper `sum`. -/
def sum (s : CircularBufferFixed) : Option Int :=
  s.get_sum

/-- Public wrapper `mean`. -/
def mean (s : CircularBufferFixed) : Option Rat :=
  s.get_mean

/-- Public wrapper `variance`. -/
def variance (s : CircularBufferFixed) : Option Rat :=
  s.get_variance

/-- Public wrapper `standard_deviation`. -/
def standard_deviation (s : CircularBufferFixed) : Option Rat :=
  s.get_standard_deviation

/-- Public wrapper `minimum`. -/
def minimum (s : CircularBufferFixed) : Option Int :=
  s.get_min

/-- Public wrapper `maximum`. -/
def maximum (s : CircularBufferFixed) : Option Int :=
  s.get_max

/-- Public wrapper `sorted`. -/
def sorted (s : CircularBufferFixed) : Option (List Int) :=
  s.get_sorted

/-- Public wrapper `reverse_sorted`. -/
def reverse_sorted (s : CircularBufferFixed) : Option (List Int) :=
  s.get_reverse_sorted

/-- Public wrapper `median`. -/
def median (s : CircularBufferFixed) : Option Rat :=
  s.get_median

/-- A freshly default-constructed `CircularBufferFixed<T, N>`: all cursors
and aggregates zero; the `std::array` contents are indeterminate, so the
initial storage is an arbitrary list `buf` of length `N`. -/
def init (N : Nat) (buf : List Int) : CircularBufferFixed :=
  { N := N, m_head := 0, m_tail := 0, m_count := 0,
    m_sum := 0, m_sum_squares := 0, m_buffer := buf }

/-- The copy constructor: loads `m_head`, `m_tail`, `m_count`, copies the
buffer, and copies `m_sum` and `m_sum_squares` for arithmetic `T`. -/
def copy (s : CircularBufferFixed) : CircularBufferFixed :=
  { N := s.N, m_head := s.m_head, m_tail := s.m_tail, m_count := s.m_count,
    m_sum := s.m_sum, m_sum_squares := s.m_sum_squares,
    m_buffer := s.m_buffer }

/-- The live elements in pop order: slot `(m_head + i) % N` for
`i < m_count`. Successive `top_pop` calls drain exactly this list. -/
def liveList (s : CircularBufferFixed) : List Int :=
  (List.range s.m_count).map (fun i => s.m_buffer.getD ((s.m_head + i) % s.N) 0)

/-- Well-formedness of a fixed-buffer state, established at construction and
preserved by every operation: positive capacity, storage of length `N`,
count within capacity, head in range, and the tail cursor determined by
head and count. -/
def WF (s : CircularBufferFixed) : Prop :=
  0 < s.N ∧ s.m_buffer.length = s.N ∧ s.m_count ≤ s.N ∧ s.m_head < s.N ∧
    s.m_tail = (s.m_head + s.m_count) % s.N

instance (s : CircularBufferFixed) : Decidable s.WF := by
  unfold WF
  infer_instance

end CircularBufferFixed

/-- Model of `CircularBufferDynamic<T>` for numeric `T`: immutable runtime
capacity `m_max_size`, the backing `std::deque<T>` as a list whose first
element is the deque front, and the running aggregates. The single mutex
serializes operations and is invisible single-threadedly. -/
structure CircularBufferDynamic where
  m_max_size : Nat
  m_buffer : List Int
  m_sum : Int
  m_sum_squares : Int
deriving DecidableEq

namespace CircularBufferDynamic

/-- Source `pop_front_unsafe`: subtract the deque front from the running
aggregates and pop it. -/
def pop_front_unsafe (s : CircularBufferDynamic) : CircularBufferDynamic :=
  let front := s.m_buffer.headD 0
  { s with m_sum := s.m_sum - front,
           m_sum_squares := s.m_sum_squares - front ^ 2,
           m_buffer := s.m_buffer.tail }

/-- Source `push_back(const T&)`: when the deque already holds `m_max_size`
elements evict the front, then append the item and add it into the running
aggregates. -/
def push_back (item : Int) (s : CircularBufferDynamic) : CircularBufferDynamic :=
  let s1 := if s.m_buffer.length = s.m_max_size then s.pop_front_unsafe else s
  { s1 with m_buffer := s1.m_buffer ++ [item],
            m_sum := s1.m_sum + item,
            m_sum_squares := s1.m_sum_squares + item ^ 2 }

/-- Source `emplace_back`: constructs at the back, otherwise as `push_back`
and reads the constructed element back for the aggregates. -/
def emplace_back (item : Int) (s : CircularBufferDynamic) : CircularBufferDynamic :=
  let s1 := if s.m_buffer.length = s.m_max_size then s.pop_front_unsafe else s
  { s1 with m_buffer := s1.m_buffer ++ [item],
            m_sum := s1.m_sum + item,
            m_sum_squares := s1.m_sum_squares + item ^ 2 }

/-- Source `get_top_pop`: `nullopt` on an empty deque, otherwise capture the
front, pop it and subtract it from the aggregates. -/
def get_top_pop (s : CircularBufferDynamic) :
    Option Int × CircularBufferDynamic :=
  match s.m_buffer with
  | [] => (none, s)
  | value :: rest =>
      (some value,
        { s with m_buffer := rest,
                 m_sum := s.m_sum - value,
                 m_sum_squares := s.m_sum_squares - value ^ 2 })

/-- Source `get_top`: peek the deque front. -/
def get_top (s : CircularBufferDynamic) : Option Int :=
  s.m_buffer.head?

/-- Source `get_last`: peek the deque back. -/
def get_last (s : CircularBufferDynamic) : Option Int :=
  s.m_buffer.getLast?

/-- Source `pop_front`: `false` on an empty deque, otherwise subtract the
front from the aggregates and pop it. -/
def pop_front (s : CircularBufferDynamic) : Bool × CircularBufferDynamic :=
  match s.m_buffer with
  | [] => (false, s)
  | front :: rest =>
      (true,
        { s with m_buffer := rest,
                 m_sum := s.m_sum - front,
                 m_sum_squares := s.m_sum_squares - front ^ 2 })

/-- Source `is_empty`. -/
def is_empty (s : CircularBufferDynamic) : Bool :=
  s.m_buffer.isEmpty

/-- Source `get_size`. -/
def get_size (s : CircularBufferDynamic) : Nat :=
  s.m_buffer.length

/-- Source `clear`: `m_buffer.clear()` only — the running aggregates
`m_sum` and `m_sum_squares` are left unchanged by the source. -/
def clear (s : CircularBufferDynamic) : CircularBufferDynamic :=
  { s with m_buffer := [] }

/-- Source `get_sum`: `nullopt` when empty, else the running `m_sum`. -/
def get_sum (s : CircularBufferDynamic) : Option Int :=
  if s.m_buffer.isEmpty then none else some s.m_sum

/-- Source `get_mean`. -/
def get_mean (s : CircularBufferDynamic) : Option Rat :=
  if s.m_buffer.isEmpty then none
  else some ((s.m_sum : Rat) / (s.m_buffer.length : Rat))

/-- Source `get_variance`: `nullopt` when empty or below two elements, else
the computational formula. -/
def get_variance (s : CircularBufferDynamic) : Option Rat :=
  if s.m_buffer.isEmpty then none
  else if s.m_buffer.length < 2 then none
  else
    let mean := (s.get_mean).getD 0
    some (((s.m_sum_squares : Rat) / (s.m_buffer.length : Rat) - mean ^ 2) *
          ((s.m_buffer.length : Rat) / ((s.m_buffer.length - 1 : Nat) : Rat)))

/-- Source `get_standard_deviation`: `nullopt` when empty, else
`sqrt(get_variance().value_or(0))`. -/
def get_standard_deviation (s : CircularBufferDynamic) : Option Rat :=
  if s.m_buffer.isEmpty then none
  else some (Rat.sqrt ((s.get_variance).getD 0))

/-- Source `get_min`: minimum over the whole deque (the live elements). -/
def get_min (s : CircularBufferDynamic) : Option Int :=
  if s.m_buffer.isEmpty then none else s.m_buffer.min?

/-- Source `get_max`: maximum over the whole deque. -/
def get_max (s : CircularBufferDynamic) : Option Int :=
  if s.m_buffer.isEmpty then none else s.m_buffer.max?

/-- Source `get_sorted`: ascending copy of the deque. -/
def get_sorted (s : CircularBufferDynamic) : Option (List Int) :=
  if s.m_buffer.isEmpty then none
  else some (s.m_buffer.insertionSort (· ≤ ·))

/-- Source `get_reverse_sorted`: descending copy of the deque. -/
def get_reverse_sorted (s : CircularBufferDynamic) : Option (List Int) :=
  if s.m_buffer.isEmpty then none
  else some (s.m_buffer.insertionSort (· ≥ ·))

/-- Source `get_median`: `nullopt` when empty; single element returned
directly; otherwise the middle value(s) of the deque's sorted copy (the
source's partial-sort prefix agrees with the full sorted copy there). -/
def get_median (s : CircularBufferDynamic) : Option Rat :=
  if s.m_buffer.isEmpty then none
  else if s.m_buffer.length = 1 then some ((s.m_buffer.headD 0 : Int) : Rat)
  else
    let size := s.m_buffer.length
    let half_size := size / 2
    let temp := s.m_buffer.insertionSort (· ≤ ·)
    if size % 2 = 0 then
      some ((((temp.getD half_size 0 : Int) : Rat) +
             ((temp.getD (half_size - 1) 0 : Int) : Rat)) / 2)
    else some ((temp.getD half_size 0 : Int) : Rat)

/-- Public wrapper `push`. -/
def push (item : Int) (s : CircularBufferDynamic) : CircularBufferDynamic :=
  s.push_back item

/-- Public wrapper `emplace`. -/
def emplace (item : Int) (s : CircularBufferDynamic) : CircularBufferDynamic :=
  s.emplace_back item

/-- Public wrapper `pop`. -/
def pop (s : CircularBufferDynamic) : Bool × CircularBufferDynamic :=
  s.pop_front

/-- Public wrapper `top`. -/
def top (s : CircularBufferDynamic) : Option Int :=
  s.get_top

/-- Public wrapper `last`. -/
def last (s : CircularBufferDynamic) : Option Int :=
  s.get_last

/-- Public wrapper `top_pop`. -/
def top_pop (s : CircularBufferDynamic) : Option Int × CircularBufferDynamic :=
  s.get_top_pop

/-- Public wrapper `empty`. -/
def empty (s : CircularBufferDynamic) : Bool :=
  s.is_empty

/-- Public wrapper `size`. -/
def size (s : CircularBufferDynamic) : Nat :=
  s.get_size

/-- Public wrapper `reset`. -/
def reset (s : CircularBufferDynamic) : CircularBufferDynamic :=
  s.clear

/-- Public wrapper `sum`. -/
def sum (s : CircularBufferDynamic) : Option Int :=
  s.get_sum

/-- Public wrapper `mean`. -/
def mean (s : CircularBufferDynamic) : Option Rat :=
  s.get_mean

/-- Public wrapper `variance`. -/
def variance (s : CircularBufferDynamic) : Option Rat :=
  s.get_variance

/-- Public wrapper `standard_deviation`. -/
def standard_deviation (s : CircularBufferDynamic) : Option Rat :=
  s.get_standard_deviation

/-- Public wrapper `minimum`. -/
def minimum (s : CircularBufferDynamic) : Option Int :=
  s.get_min

/-- Public wrapper `maximum`. -/
def maximum (s : CircularBufferDynamic) : Option Int :=
  s.get_max

/-- Public wrapper `sorted`. -/
def sorted (s : CircularBufferDynamic) : Option (List Int) :=
  s.get_sorted

/-- Public wrapper `reverse_sorted`. -/
def reverse_sorted (s : CircularBufferDynamic) : Option (List Int) :=
  s.get_reverse_sorted

/-- Public wrapper `median`. -/
def median (s : CircularBufferDynamic) : Option Rat :=
  s.get_median

/-- A freshly constructed `CircularBufferDynamic<T>(size)`: empty deque,
aggregates zero. -/
def init (size : Nat) : CircularBufferDynamic :=
  { m_max_size := size, m_buffer := [], m_sum := 0, m_sum_squares := 0 }

/-- The copy constructor: copies `m_max_size`, the deque, and the
aggregates under the scoped dual lock. -/
def copy (s : CircularBufferDynamic) : CircularBufferDynamic :=
  { m_max_size := s.m_max_size, m_buffer := s.m_buffer,
    m_sum := s.m_sum, m_sum_squares := s.m_sum_squares }

end CircularBufferDynamic

/-- Model of the facade `CircularBuffer<T, 0>` (sentinel zero compile-time
capacity) for numeric `T`: the `N == 0` member-function bodies of
`src/include/CircularBuffer.hpp`, a ring over a `std::vector` of runtime
length `m_max_size` with its own `m_head`/`m_tail`/`m_count` cursors. It
does not delegate to `CircularBufferDynamic`. -/
structure CircularBuffer0 where
  m_head : Nat
  m_tail : Nat
  m_count : Nat
  m_sum : Int
  m_sum_squares : Int
  m_max_size : Nat
  m_buffer : List Int
deriving DecidableEq

namespace CircularBuffer0

/-- Source `increment` for `N == 0`:
`(value + 1) % (m_max_size == 0 ? 1 : m_max_size)`. -/
def increment (s : CircularBuffer0) (value : Nat) : Nat :=
  (value + 1) % (if s.m_max_size = 0 then 1 else s.m_max_size)

/-- Source `is_empty`. -/
def is_empty (s : CircularBuffer0) : Bool :=
  s.m_count == 0

/-- Source `full` for `N == 0`: `m_count == m_max_size`. -/
def full (s : CircularBuffer0) : Bool :=
  s.m_count == s.m_max_size

/-- Source `get_size`. -/
def get_size (s : CircularBuffer0) : Nat :=
  s.m_count

/-- Source `pop_front_unsafe`: CAS-advance `m_head`, subtract the evicted
slot from the aggregates, destroy it, decrement `m_count`. -/
def pop_front_unsafe (s : CircularBuffer0) : CircularBuffer0 :=
  let current_head := s.m_head
  let next_head := s.increment current_head
  let v := s.m_buffer.getD current_head 0
  { s with m_head := next_head,
           m_sum := s.m_sum - v,
           m_sum_squares := s.m_sum_squares - v ^ 2,
           m_count := s.m_count - 1 }

/-- Source `insert`: read `m_tail`, evict when full, CAS-advance `m_tail`;
returns the observed `current_tail` with the new state. -/
def insert (s : CircularBuffer0) : Nat × CircularBuffer0 :=
  let current_tail := s.m_tail
  let next_tail := s.increment current_tail
  let s1 := if s.full then s.pop_front_unsafe else s
  (current_tail, { s1 with m_tail := next_tail })

/-- Source `read_insert`: `nullopt` when empty, else CAS-advance `m_head`
and return the observed head index. -/
def read_insert (s : CircularBuffer0) : Option Nat × CircularBuffer0 :=
  if s.is_empty then (none, s)
  else
    let current_head := s.m_head
    let next_head := s.increment current_head
    (some current_head, { s with m_head := next_head })

/-- Source `push_back(const T&)` for the facade: write at `insert()`'s slot,
`atomic_add`, increment `m_count` (no second store of `m_tail`). -/
def push_back (item : Int) (s : CircularBuffer0) : CircularBuffer0 :=
  let r := s.insert
  let s1 := r.2
  let s2 := { s1 with m_buffer := s1.m_buffer.set r.1 item }
  { s2 with m_sum := s2.m_sum + item,
            m_sum_squares := s2.m_sum_squares + item ^ 2,
            m_count := s2.m_count + 1 }

/-- Source `get_top_pop` for the facade: `read_insert`, then read, destroy,
`atomic_sub`, decrement `m_count`. -/
def get_top_pop (s : CircularBuffer0) : Option Int × CircularBuffer0 :=
  let r := s.read_insert
  match r.1 with
  | none => (none, s)
  | some current_head =>
      let value := r.2.m_buffer.getD current_head 0
      (some value,
        { r.2 with m_sum := r.2.m_sum - value,
                   m_sum_squares := r.2.m_sum_squares - value ^ 2,
                   m_count := r.2.m_count - 1 })

/-- Source `pop_front` for the facade: as `get_top_pop` but returns a
boolean. -/
def pop_front (s : CircularBuffer0) : Bool × CircularBuffer0 :=
  let r := s.read_insert
  match r.1 with
  | none => (false, s)
  | some current_head =>
      let value := r.2.m_buffer.getD current_head 0
      (true,
        { r.2 with m_sum := r.2.m_sum - value,
                   m_sum_squares := r.2.m_sum_squares - value ^ 2,
                   m_count := r.2.m_count - 1 })

/-- Fuel-indexed unfolding of the facade `clear` loop. -/
def clearFuel : Nat → CircularBuffer0 → CircularBuffer0
  | 0, s => s
  | fuel + 1, s => if s.is_empty then s else clearFuel fuel (s.pop_front).2

/-- Source `clear` for the facade: pop until empty (this resets the running
aggregates element by element, unlike `CircularBufferDynamic::clear`). -/
def clear (s : CircularBuffer0) : CircularBuffer0 :=
  clearFuel s.m_count s

/-- Source `get_sum`: `nullopt` when empty, else the running `m_sum`. -/
def get_sum (s : CircularBuffer0) : Option Int :=
  if s.is_empty then none else some s.m_sum

/-- Public wrapper `push`. -/
def push (item : Int) (s : CircularBuffer0) : CircularBuffer0 :=
  s.push_back item

/-- Public wrapper `reset`. -/
def reset (s : CircularBuffer0) : CircularBuffer0 :=
  s.clear

/-- Public wrapper `sum`. -/
def sum (s : CircularBuffer0) : Option Int :=
  s.get_sum

/-- A freshly constructed `CircularBuffer<T, 0>(size)`: cursors and
aggregates zero, and the backing `std::vector<T> m_buffer(size)` is
value-initialized to zeros. -/
def init (size : Nat) : CircularBuffer0 :=
  { m_head := 0, m_tail := 0, m_count := 0, m_sum := 0, m_sum_squares := 0,
    m_max_size := size, m_buffer := List.replicate size 0 }

end CircularBuffer0

/-- One single-threaded operation of the shared interface, applied to a
buffer. Read-only calls (`top`, `last` and the statistics queries) do not
change the state; they are carried so that claim C6 quantifies over the
full operation surface. -/
inductive Op
  | push (x : Int)
  | emplace (x : Int)
  | pop
  | top_pop
  | top
  | last
  | reset
  | stats
deriving DecidableEq

namespace CircularBufferFixed

/-- Apply one operation to a fixed buffer. -/
def applyOp (s : CircularBufferFixed) : Op → CircularBufferFixed
  | .push x => s.push_back x
  | .emplace x => s.emplace_back x
  | .pop => (s.pop_front).2
  | .top_pop => (s.get_top_pop).2
  | .top => s
  | .last => s
  | .reset => s.clear
  | .stats => s

/-- Apply a sequence of operations, oldest first. -/
def applyOps (s : CircularBufferFixed) (ops : List Op) : CircularBufferFixed :=
  ops.foldl applyOp s

/-- Push a list of items, oldest first. -/
def pushAll (xs : List Int) (s : CircularBufferFixed) : CircularBufferFixed :=
  xs.foldl (fun t x => t.push_back x) s

/-- The results of `n` successive `top_pop` calls. -/
def topPops (s : CircularBufferFixed) : Nat → List (Option Int)
  | 0 => []
  | n + 1 => (s.get_top_pop).1 :: (s.get_top_pop).2.topPops n

end CircularBufferFixed

namespace CircularBufferDynamic

/-- Apply one operation to a dynamic buffer. -/
def applyOp (s : CircularBufferDynamic) : Op → CircularBufferDynamic
  | .push x => s.push_back x
  | .emplace x => s.emplace_back x
  | .pop => (s.pop_front).2
  | .top_pop => (s.get_top_pop).2
  | .top => s
  | .last => s
  | .reset => s.clear
  | .stats => s

/-- Apply a sequence of operations, oldest first. -/
def applyOps (s : CircularBufferDynamic) (ops : List Op) :
    CircularBufferDynamic :=
  ops.foldl applyOp s

/-- Push a list of items, oldest first. -/
def pushAll (xs : List Int) (s : CircularBufferDynamic) :
    CircularBufferDynamic :=
  xs.foldl (fun t x => t.push_back x) s

/-- The results of `n` successive `top_pop` calls. -/
def topPops (s : CircularBufferDynamic) : Nat → List (Option Int)
  | 0 => []
  | n + 1 => (s.get_top_pop).1 :: (s.get_top_pop).2.topPops n

end CircularBufferDynamic

/-- The abstract bounded-FIFO step at capacity `c`: evict the oldest element
when the queue already holds `c` elements, then append. Both stores refine
this step on their live element lists. -/
def stepQ (c : Nat) (l : List Int) (x : Int) : List Int :=
  (if l.length = c then l.drop 1 else l) ++ [x]

/-- The dynamic-store state reached by `push 1; reset; push 2` at capacity 2,
exhibiting the stale running aggregates after `clear`. -/
def c1state : CircularBufferDynamic :=
  CircularBufferDynamic.push 2 (CircularBufferDynamic.reset
    (CircularBufferDynamic.push 1 (CircularBufferDynamic.init 2)))

/-- A fixed buffer of capacity 5 holding exactly one element, 5. -/
def c2fixed : CircularBufferFixed :=
  CircularBufferFixed.push 5 (CircularBufferFixed.init 5 [0, 0, 0, 0, 0])

/-- A dynamic buffer of capacity 5 holding exactly one element, 5. -/
def c2dynamic : CircularBufferDynamic :=
  CircularBufferDynamic.push 5 (CircularBufferDynamic.init 5)

/-- The capacity-2 fixed-buffer state reached by `push 1; push 2; pop`: its
live window is the single element 2 sitting at slot 1, while slot 0 still
holds the stale value 1. -/
def c4state : CircularBufferFixed :=
  CircularBufferFixed.applyOps (CircularBufferFixed.init 2 [0, 0])
    [.push 1, .push 2, .pop]

/-- A well-formed capacity-2 fixed-buffer state with head at slot 0 holding
the live elements 3 and 7. -/
def c4good : CircularBufferFixed :=
  { N := 2, m_head := 0, m_tail := 0, m_count := 2,
    m_sum := 10, m_sum_squares := 58, m_buffer := [3, 7] }

/-- A well-formed capacity-3 fixed-buffer state holding the live elements
3 and 4 at slots 0 and 1, with the next write going to slot 2. -/
def c10state : CircularBufferFixed :=
  { N := 3, m_head := 0, m_tail := 2, m_count := 2,
    m_sum := 7, m_sum_squares := 25, m_buffer := [3, 4, 0] }

/-- The facade `CircularBuffer<int, 0>` constructed with capacity 1, after
`push 1; reset; push 2`. -/
def c8facade : CircularBuffer0 :=
  CircularBuffer0.push 2 (CircularBuffer0.reset
    (CircularBuffer0.push 1 (CircularBuffer0.init 1)))

/-- `CircularBufferDynamic<int>` constructed with capacity 1, after the same
operation sequence `push 1; reset; push 2`. -/
def c8dynamic : CircularBufferDynamic :=
  CircularBufferDynamic.push 2 (CircularBufferDynamic.reset
    (CircularBufferDynamic.push 1 (CircularBufferDynamic.init 1)))

theorem getD_set_self {l : List Int} {i : Nat} (x : Int) (h : i < l.length) :
    (l.set i x).getD i 0 = x := by
  simp [List.getD_eq_getElem?_getD, List.getElem?_set_self, h]

theorem getD_set_ne {l : List Int} {i j : Nat} (x : Int) (h : i ≠ j) :
    (l.set i x).getD j 0 = l.getD j 0 := by
  simp [List.getD_eq_getElem?_getD, List.getElem?_set_ne h]

theorem range_map_getD (l : List Int) (n : Nat) (h : n ≤ l.length) :
    (List.range n).map (fun i => l.getD i 0) = l.take n := by
  induction n with
  | zero => simp
  | succ k ih =>
      have hk : k < l.length := by omega
      rw [List.range_succ, List.map_append, ih (by omega), List.take_succ,
          List.getElem?_eq_getElem hk]
      simp only [List.map_cons, List.map_nil, Option.toList_some]
      rw [List.getD_eq_getElem l 0 hk]

theorem mod_shift_ne {N i j : Nat} (a : Nat) (hij : i < j) (hd : j - i < N) :
    (a + i) % N ≠ (a + j) % N := by
  intro hEq
  have h1 : a + i ≤ a + j := by omega
  have h2 : N ∣ (a + j) - (a + i) := (Nat.modEq_iff_dvd' h1).mp hEq
  have h3 : (a + j) - (a + i) = j - i := by omega
  rw [h3] at h2
  have := Nat.le_of_dvd (by omega) h2
  omega

theorem take_append_getD (xs : List Int) (c : Nat) (h : xs.length = c + 1) :
    xs.take c ++ [xs.getD c 0] = xs := by
  have hc : c < xs.length := by omega
  have h1 := List.take_append_drop c xs
  rw [List.drop_eq_getElem_cons hc,
      List.drop_eq_nil_of_le (by omega : xs.length ≤ c + 1)] at h1
  rw [List.getD_eq_getElem xs 0 hc]
  exact h1

theorem drop_take_getD (xs : List Int) (c : Nat) (hc : 0 < c)
    (h : xs.length = c + 1) :
    (xs.take c).drop 1 ++ [xs.getD c 0] = xs.drop 1 := by
  have hlen : 1 ≤ (xs.take c).length := by
    rw [List.length_take]
    omega
  rw [← List.drop_append_of_le_length hlen, take_append_getD xs c h]

theorem head?_drop_one (xs : List Int) (h : 1 < xs.length) :
    (xs.drop 1).head? = some (xs.getD 1 0) := by
  rw [List.drop_eq_getElem_cons h, List.getD_eq_getElem xs 0 h]
  rfl

theorem ringFull (B : List Int) (hd m : Nat) (x : Int) (hlen : B.length = m + 1)
    (hhd : hd < m + 1) :
    (List.range (m + 1)).map
        (fun i => (B.set hd x).getD ((hd + 1 + i) % (m + 1)) 0) =
      ((List.range (m + 1)).map (fun i => B.getD ((hd + i) % (m + 1)) 0)).drop 1
        ++ [x] := by
  have hR : ((List.range (m + 1)).map
        (fun i => B.getD ((hd + i) % (m + 1)) 0)).drop 1 =
      (List.range m).map (fun i => B.getD ((hd + (i + 1)) % (m + 1)) 0) := by
    rw [List.range_succ_eq_map]
    simp [List.map_map, Function.comp]
  have hL : (List.range (m + 1)).map
        (fun i => (B.set hd x).getD ((hd + 1 + i) % (m + 1)) 0) =
      (List.range m).map
        (fun i => (B.set hd x).getD ((hd + 1 + i) % (m + 1)) 0) ++
        [(B.set hd x).getD ((hd + 1 + m) % (m + 1)) 0] := by
    rw [List.range_succ, List.map_append]
    simp
  rw [hL, hR]
  congr 1
  · apply List.map_congr_left
    intro i hi
    have him : i < m := List.mem_range.mp hi
    have hne : hd ≠ (hd + 1 + i) % (m + 1) := by
      have h0 := mod_shift_ne (N := m + 1) (i := 0) (j := 1 + i) hd
        (by omega) (by omega)
      intro hcon
      apply h0
      rw [Nat.add_zero, Nat.mod_eq_of_lt hhd, hcon]
      congr 1
      omega
    rw [getD_set_ne x hne]
    congr 2
    omega
  · have hidx : (hd + 1 + m) % (m + 1) = hd := by
      have : hd + 1 + m = hd + (m + 1) := by omega
      rw [this, Nat.add_mod_right, Nat.mod_eq_of_lt hhd]
    rw [hidx, getD_set_self x (by omega)]

theorem ringPush (B : List Int) (hd cnt N : Nat) (x : Int) (hlen : B.length = N)
    (hhd : hd < N) (hcnt : cnt < N) :
    (List.range (cnt + 1)).map
        (fun i => (B.set ((hd + cnt) % N) x).getD ((hd + i) % N) 0) =
      (List.range cnt).map (fun i => B.getD ((hd + i) % N) 0) ++ [x] := by
  rw [List.range_succ, List.map_append]
  congr 1
  · apply List.map_congr_left
    intro i hi
    have hicnt : i < cnt := List.mem_range.mp hi
    have hne : (hd + cnt) % N ≠ (hd + i) % N := by
      have := mod_shift_ne (N := N) (i := i) (j := cnt) hd hicnt (by omega)
      exact this.symm
    rw [getD_set_ne x hne]
  · simp only [List.map_cons, List.map_nil]
    rw [getD_set_self x (by rw [hlen]; exact Nat.mod_lt _ (by omega))]

theorem ringPop (B : List Int) (hd cnt N : Nat) :
    (List.range cnt).map (fun i => B.getD (((hd + 1) % N + i) % N) 0) =
      ((List.range (cnt + 1)).map (fun i => B.getD ((hd + i) % N) 0)).drop 1 := by
  have hR : ((List.range (cnt + 1)).map
        (fun i => B.getD ((hd + i) % N) 0)).drop 1 =
      (List.range cnt).map (fun i => B.getD ((hd + (i + 1)) % N) 0) := by
    rw [List.range_succ_eq_map]
    simp [List.map_map, Function.comp]
  rw [hR]
  apply List.map_congr_left
  intro i _
  rw [Nat.mod_add_mod]
  have : hd + 1 + i = hd + (i + 1) := by omega
  rw [this]

namespace CircularBufferFixed

theorem liveList_length (s : CircularBufferFixed) :
    s.liveList.length = s.m_count := by
  simp [liveList]

theorem WF_init (N : Nat) (buf : List Int) (hN : 0 < N)
    (hlen : buf.length = N) : (init N buf).WF := by
  refine ⟨hN, hlen, Nat.zero_le _, hN, ?_⟩
  simp [init]

theorem liveList_init (N : Nat) (buf : List Int) :
    (init N buf).liveList = [] := by
  simp [liveList, init]

theorem push_back_eq_of_not_full (s : CircularBufferFixed) (x : Int)
    (hf : s.m_count ≠ s.N) :
    s.push_back x =
      { s with m_buffer := s.m_buffer.set s.m_tail x,
               m_tail := (s.m_tail + 1) % s.N,
               m_count := s.m_count + 1,
               m_sum := s.m_sum + x,
               m_sum_squares := s.m_sum_squares + x ^ 2 } := by
  cases s
  simp_all [push_back, insert, increment, is_full, pop_front_unsafe]

theorem push_back_eq_of_full (s : CircularBufferFixed) (x : Int)
    (hN : 0 < s.N) (hf : s.m_count = s.N) :
    s.push_back x =
      { s with m_head := (s.m_head + 1) % s.N,
               m_tail := (s.m_tail + 1) % s.N,
               m_count := s.N,
               m_buffer := s.m_buffer.set s.m_tail x,
               m_sum := s.m_sum - s.m_buffer.getD s.m_head 0 + x,
               m_sum_squares :=
                 s.m_sum_squares - (s.m_buffer.getD s.m_head 0) ^ 2 + x ^ 2 } := by
  cases s
  simp_all [push_back, insert, increment, is_full, pop_front_unsafe]
  omega

theorem emplace_back_eq_push_back (s : CircularBufferFixed) (x : Int) :
    s.emplace_back x = s.push_back x := rfl

theorem push_back_spec (s : CircularBufferFixed) (x : Int) (h : s.WF) :
    (s.push_back x).WF ∧ (s.push_back x).N = s.N ∧
      (s.push_back x).liveList = stepQ s.N s.liveList x := by
  obtain ⟨hN, hlen, hcnt, hhead, htail⟩ := h
  by_cases hf : s.m_count = s.N
  · have hth : s.m_tail = s.m_head := by
      rw [htail, hf, Nat.add_mod_right, Nat.mod_eq_of_lt hhead]
    rw [push_back_eq_of_full s x hN hf]
    obtain ⟨m, hm⟩ : ∃ m, s.N = m + 1 := ⟨s.N - 1, by omega⟩
    refine ⟨⟨hN, by simpa using hlen, le_refl _, Nat.mod_lt _ hN, ?_⟩, rfl, ?_⟩
    · rw [hth, Nat.add_mod_right]
      exact (Nat.mod_mod_of_dvd _ dvd_rfl).symm
    · have hLeft :
          ({ s with m_head := (s.m_head + 1) % s.N,
                    m_tail := (s.m_tail + 1) % s.N,
                    m_count := s.N,
                    m_buffer := s.m_buffer.set s.m_tail x,
                    m_sum := s.m_sum - s.m_buffer.getD s.m_head 0 + x,
                    m_sum_squares :=
                      s.m_sum_squares - (s.m_buffer.getD s.m_head 0) ^ 2 + x ^ 2
            } : CircularBufferFixed).liveList =
            (List.range (m + 1)).map
              (fun i =>
                (s.m_buffer.set s.m_head x).getD ((s.m_head + 1 + i) % (m + 1)) 0) := by
        simp only [liveList]
        rw [hth, hm]
        simp only [Nat.mod_add_mod]
      have hRight : stepQ s.N s.liveList x =
          ((List.range (m + 1)).map
            (fun i => s.m_buffer.getD ((s.m_head + i) % (m + 1)) 0)).drop 1
            ++ [x] := by
        rw [stepQ, if_pos (by rw [liveList_length]; omega)]
        simp only [liveList]
        rw [hf, hm]
      rw [hLeft, hRight]
      exact ringFull s.m_buffer s.m_head m x (by omega) (by omega)
  · rw [push_back_eq_of_not_full s x hf]
    refine ⟨⟨hN, by simpa using hlen,
      by show s.m_count + 1 ≤ s.N; omega, hhead, ?_⟩, rfl, ?_⟩
    · rw [htail, Nat.mod_add_mod]
      have : s.m_head + s.m_count + 1 = s.m_head + (s.m_count + 1) := by omega
      rw [this]
    · have hLeft :
          ({ s with m_buffer := s.m_buffer.set s.m_tail x,
                    m_tail := (s.m_tail + 1) % s.N,
                    m_count := s.m_count + 1,
                    m_sum := s.m_sum + x,
                    m_sum_squares := s.m_sum_squares + x ^ 2
            } : CircularBufferFixed).liveList =
            (List.range (s.m_count + 1)).map
              (fun i =>
                (s.m_buffer.set ((s.m_head + s.m_count) % s.N) x).getD
                  ((s.m_head + i) % s.N) 0) := by
        simp only [liveList]
        rw [htail]
      have hRight : stepQ s.N s.liveList x =
          (List.range s.m_count).map
            (fun i => s.m_buffer.getD ((s.m_head + i) % s.N) 0) ++ [x] := by
        rw [stepQ, if_neg (by rw [liveList_length]; omega)]
        simp only [liveList]
      rw [hLeft, hRight]
      exact ringPush s.m_buffer s.m_head s.m_count s.N x hlen hhead (by omega)

theorem get_top_pop_spec (s : CircularBufferFixed) (h : s.WF) :
    (s.get_top_pop).1 = s.liveList.head? ∧ (s.get_top_pop).2.WF ∧
      (s.get_top_pop).2.N = s.N ∧
      (s.get_top_pop).2.m_count = s.m_count - 1 ∧
      (s.get_top_pop).2.liveList = s.liveList.tail := by
  obtain ⟨hN, hlen, hcnt, hhead, htail⟩ := h
  by_cases he : s.m_count = 0
  · have hl : s.liveList = [] := by simp [liveList, he]
    have hstate : s.get_top_pop = (none, s) := by
      simp [get_top_pop, is_empty, he]
    rw [hstate, hl]
    exact ⟨rfl, ⟨hN, hlen, hcnt, hhead, htail⟩, rfl,
      by show s.m_count = s.m_count - 1; omega, rfl⟩
  · obtain ⟨k, hk⟩ : ∃ k, s.m_count = k + 1 := ⟨s.m_count - 1, by omega⟩
    have hstate : s.get_top_pop =
        (some (s.m_buffer.getD s.m_head 0),
         { s with m_head := (s.m_head + 1) % s.N,
                  m_sum := s.m_sum - s.m_buffer.getD s.m_head 0,
                  m_sum_squares :=
                    s.m_sum_squares - (s.m_buffer.getD s.m_head 0) ^ 2,
                  m_count := s.m_count - 1 }) := by
      simp [get_top_pop, is_empty, increment, he]
    rw [hstate]
    refine ⟨?_, ⟨hN, hlen, by show s.m_count - 1 ≤ s.N; omega,
      Nat.mod_lt _ hN, ?_⟩, rfl, rfl, ?_⟩
    · simp only [liveList]
      rw [hk, List.range_succ_eq_map]
      simp [Nat.mod_eq_of_lt hhead]
    · rw [htail, Nat.mod_add_mod]
      have : s.m_head + 1 + (s.m_count - 1) = s.m_head + s.m_count := by omega
      rw [this]
    · rw [← List.drop_one]
      simp only [liveList]
      have h1 : s.m_count - 1 = k := by omega
      rw [h1, hk]
      exact ringPop s.m_buffer s.m_head k s.N

theorem pop_front_state (s : CircularBufferFixed) :
    (s.pop_front).2 = (s.get_top_pop).2 ∧
      (s.pop_front).1 = ((s.get_top_pop).1).isSome := by
  by_cases he : s.is_empty <;> simp [pop_front, get_top_pop, he]

theorem clearFuel_spec : ∀ (fuel : Nat) (s : CircularBufferFixed), s.WF →
    (clearFuel fuel s).WF ∧ (clearFuel fuel s).N = s.N := by
  intro fuel
  induction fuel with
  | zero => intro s hs; exact ⟨hs, rfl⟩
  | succ f ih =>
      intro s hs
      rw [clearFuel]
      by_cases he : s.is_empty
      · rw [if_pos he]; exact ⟨hs, rfl⟩
      · rw [if_neg he]
        have hps : (s.pop_front).2 = (s.get_top_pop).2 := (pop_front_state s).1
        have htp := get_top_pop_spec s hs
        have hrec := ih (s.pop_front).2 (by rw [hps]; exact htp.2.1)
        exact ⟨hrec.1, by rw [hrec.2, hps, htp.2.2.1]⟩

theorem clear_spec (s : CircularBufferFixed) (h : s.WF) :
    (s.clear).WF ∧ (s.clear).N = s.N :=
  clearFuel_spec s.m_count s h

theorem applyOp_spec (s : CircularBufferFixed) (o : Op) (h : s.WF) :
    (s.applyOp o).WF ∧ (s.applyOp o).N = s.N := by
  cases o with
  | push x => exact ⟨(push_back_spec s x h).1, (push_back_spec s x h).2.1⟩
  | emplace x =>
      show ((s.emplace_back x).WF ∧ (s.emplace_back x).N = s.N)
      rw [emplace_back_eq_push_back]
      exact ⟨(push_back_spec s x h).1, (push_back_spec s x h).2.1⟩
  | pop =>
      show ((s.pop_front).2.WF ∧ (s.pop_front).2.N = s.N)
      rw [(pop_front_state s).1]
      exact ⟨(get_top_pop_spec s h).2.1, (get_top_pop_spec s h).2.2.1⟩
  | top_pop =>
      exact ⟨(get_top_pop_spec s h).2.1, (get_top_pop_spec s h).2.2.1⟩
  | top => exact ⟨h, rfl⟩
  | last => exact ⟨h, rfl⟩
  | reset => exact clear_spec s h
  | stats => exact ⟨h, rfl⟩

theorem applyOps_cons (s : CircularBufferFixed) (o : Op) (rest : List Op) :
    s.applyOps (o :: rest) = (s.applyOp o).applyOps rest := rfl

theorem applyOps_spec (ops : List Op) : ∀ s : CircularBufferFixed, s.WF →
    (s.applyOps ops).WF ∧ (s.applyOps ops).N = s.N := by
  induction ops with
  | nil => intro s hs; exact ⟨hs, rfl⟩
  | cons o rest ih =>
      intro s hs
      have h1 := applyOp_spec s o hs
      have h2 := ih (s.applyOp o) h1.1
      rw [applyOps_cons]
      exact ⟨h2.1, h2.2.trans h1.2⟩

theorem pushAll_cons (s : CircularBufferFixed) (y : Int) (ys : List Int) :
    pushAll (y :: ys) s = pushAll ys (s.push_back y) := rfl

theorem pushAll_spec (xs : List Int) : ∀ s : CircularBufferFixed, s.WF →
    s.m_count + xs.length ≤ s.N →
    (pushAll xs s).WF ∧ (pushAll xs s).N = s.N ∧
      (pushAll xs s).liveList = s.liveList ++ xs := by
  induction xs with
  | nil => intro s hs _; exact ⟨hs, rfl, by simp [pushAll]⟩
  | cons y ys ih =>
      intro s hs hlen
      have hp := push_back_spec s y hs
      have hne : s.liveList.length ≠ s.N := by
        rw [liveList_length]
        simp at hlen
        omega
      have hlive : (s.push_back y).liveList = s.liveList ++ [y] := by
        rw [hp.2.2, stepQ, if_neg hne]
      have hcnt : (s.push_back y).m_count = s.m_count + 1 := by
        have hcong := congrArg List.length hlive
        rw [liveList_length, List.length_append, liveList_length] at hcong
        simpa using hcong
      have hrec := ih (s.push_back y) hp.1
        (by rw [hcnt, hp.2.1]; simp at hlen ⊢; omega)
      refine ⟨by rw [pushAll_cons]; exact hrec.1,
              by rw [pushAll_cons]; exact hrec.2.1.trans hp.2.1, ?_⟩
      rw [pushAll_cons, hrec.2.2, hlive]
      simp

theorem get_top_spec (s : CircularBufferFixed) (h : s.WF) :
    s.get_top = s.liveList.head? := by
  obtain ⟨hN, hlen, hcnt, hhead, htail⟩ := h
  by_cases he : s.m_count = 0
  · simp [get_top, is_empty, he, liveList]
  · obtain ⟨k, hk⟩ : ∃ k, s.m_count = k + 1 := ⟨s.m_count - 1, by omega⟩
    simp only [get_top, is_empty]
    rw [if_neg (by simp [he])]
    simp only [liveList]
    rw [hk, List.range_succ_eq_map]
    simp [Nat.mod_eq_of_lt hhead]

theorem topPops_liveList : ∀ (n : Nat) (s : CircularBufferFixed), s.WF →
    s.m_count = n → s.topPops n = s.liveList.map some := by
  intro n
  induction n with
  | zero => intro s _ h0; simp [topPops, liveList, h0]
  | succ k ih =>
      intro s hs hk
      have htp := get_top_pop_spec s hs
      have hlen : s.liveList.length = k + 1 := by rw [liveList_length, hk]
      obtain ⟨a, t, hat⟩ : ∃ a t, s.liveList = a :: t := by
        cases hcase : s.liveList with
        | nil => rw [hcase] at hlen; simp at hlen
        | cons a t => exact ⟨a, t, rfl⟩
      rw [topPops, ih (s.get_top_pop).2 htp.2.1 (by rw [htp.2.2.2.1]; omega)]
      rw [htp.1, htp.2.2.2.2, hat]
      simp

end CircularBufferFixed

namespace CircularBufferDynamic

theorem dyn_push_back_eq_of_not_full (s : CircularBufferDynamic) (x : Int)
    (hf : s.m_buffer.length ≠ s.m_max_size) :
    s.push_back x = { s with m_buffer := s.m_buffer ++ [x],
                             m_sum := s.m_sum + x,
                             m_sum_squares := s.m_sum_squares + x ^ 2 } := by
  cases s
  simp_all [push_back]

theorem push_back_full_buffer (s : CircularBufferDynamic) (x : Int)
    (hf : s.m_buffer.length = s.m_max_size) :
    (s.push_back x).m_buffer = s.m_buffer.drop 1 ++ [x] := by
  cases s
  simp_all [push_back, pop_front_unsafe, List.drop_one]

theorem push_back_max (s : CircularBufferDynamic) (x : Int) :
    (s.push_back x).m_max_size = s.m_max_size := by
  cases s
  simp only [push_back]
  split <;> rfl

theorem dyn_emplace_back_eq_push_back (s : CircularBufferDynamic) (x : Int) :
    s.emplace_back x = s.push_back x := rfl

theorem dyn_pushAll_cons (s : CircularBufferDynamic) (y : Int) (ys : List Int) :
    pushAll (y :: ys) s = pushAll ys (s.push_back y) := rfl

theorem pushAll_buffer (xs : List Int) : ∀ s : CircularBufferDynamic,
    s.m_buffer.length + xs.length ≤ s.m_max_size →
    (pushAll xs s).m_buffer = s.m_buffer ++ xs ∧
      (pushAll xs s).m_max_size = s.m_max_size := by
  induction xs with
  | nil => intro s _; exact ⟨by simp [pushAll], rfl⟩
  | cons y ys ih =>
      intro s hlen
      have hne : s.m_buffer.length ≠ s.m_max_size := by simp at hlen; omega
      have hpush := dyn_push_back_eq_of_not_full s y hne
      have hrec := ih (s.push_back y)
        (by rw [hpush]; simp at hlen ⊢; omega)
      refine ⟨?_, ?_⟩
      · rw [dyn_pushAll_cons, hrec.1, hpush]
        simp
      · rw [dyn_pushAll_cons, hrec.2, hpush]

theorem topPops_buffer : ∀ (n : Nat) (s : CircularBufferDynamic),
    s.m_buffer.length = n → s.topPops n = s.m_buffer.map some := by
  intro n
  induction n with
  | zero =>
      intro s h0
      have hb : s.m_buffer = [] := List.eq_nil_of_length_eq_zero h0
      simp [topPops, hb]
  | succ k ih =>
      intro s hk
      obtain ⟨ms, buf, su, sq⟩ := s
      dsimp at hk
      cases buf with
      | nil => simp at hk
      | cons a t =>
          rw [topPops]
          have hrec := ih
            { m_max_size := ms, m_buffer := t,
              m_sum := su - a, m_sum_squares := sq - a ^ 2 }
            (by simpa using hk)
          simp [get_top_pop, hrec]

theorem pop_front_shrink (s : CircularBufferDynamic) :
    (s.pop_front).2.m_buffer.length ≤ s.m_buffer.length ∧
      (s.pop_front).2.m_max_size = s.m_max_size := by
  obtain ⟨ms, buf, su, sq⟩ := s
  cases buf <;> simp [pop_front]

theorem get_top_pop_shrink (s : CircularBufferDynamic) :
    (s.get_top_pop).2.m_buffer.length ≤ s.m_buffer.length ∧
      (s.get_top_pop).2.m_max_size = s.m_max_size := by
  obtain ⟨ms, buf, su, sq⟩ := s
  cases buf <;> simp [get_top_pop]

theorem push_back_size (s : CircularBufferDynamic) (x : Int)
    (hmax : 0 < s.m_max_size) (hlen : s.m_buffer.length ≤ s.m_max_size) :
    (s.push_back x).m_buffer.length ≤ s.m_max_size := by
  by_cases hf : s.m_buffer.length = s.m_max_size
  · rw [push_back_full_buffer s x hf, List.length_append, List.length_drop]
    simp
    omega
  · rw [dyn_push_back_eq_of_not_full s x hf]
    show (s.m_buffer ++ [x]).length ≤ s.m_max_size
    rw [List.length_append]
    simp
    omega

theorem applyOp_size (s : CircularBufferDynamic) (o : Op)
    (hmax : 0 < s.m_max_size) (hlen : s.m_buffer.length ≤ s.m_max_size) :
    (s.applyOp o).m_buffer.length ≤ s.m_max_size ∧
      (s.applyOp o).m_max_size = s.m_max_size := by
  cases o with
  | push x => exact ⟨push_back_size s x hmax hlen, push_back_max s x⟩
  | emplace x =>
      show ((s.emplace_back x).m_buffer.length ≤ s.m_max_size ∧
        (s.emplace_back x).m_max_size = s.m_max_size)
      rw [dyn_emplace_back_eq_push_back]
      exact ⟨push_back_size s x hmax hlen, push_back_max s x⟩
  | pop => exact ⟨le_trans (pop_front_shrink s).1 hlen, (pop_front_shrink s).2⟩
  | top_pop =>
      exact ⟨le_trans (get_top_pop_shrink s).1 hlen, (get_top_pop_shrink s).2⟩
  | top => exact ⟨hlen, rfl⟩
  | last => exact ⟨hlen, rfl⟩
  | reset => exact ⟨by show ([] : List Int).length ≤ s.m_max_size; simp, rfl⟩
  | stats => exact ⟨hlen, rfl⟩

theorem dyn_applyOps_cons (s : CircularBufferDynamic) (o : Op) (rest : List Op) :
    s.applyOps (o :: rest) = (s.applyOp o).applyOps rest := rfl

theorem applyOps_size (ops : List Op) : ∀ s : CircularBufferDynamic,
    0 < s.m_max_size → s.m_buffer.length ≤ s.m_max_size →
    (s.applyOps ops).m_buffer.length ≤ s.m_max_size ∧
      (s.applyOps ops).m_max_size = s.m_max_size := by
  induction ops with
  | nil => intro s _ h; exact ⟨h, rfl⟩
  | cons o rest ih =>
      intro s hmax hlen
      have h1 := applyOp_size s o hmax hlen
      have h2 := ih (s.applyOp o) (by rw [h1.2]; exact hmax)
        (by rw [h1.2]; exact h1.1)
      rw [dyn_applyOps_cons]
      exact ⟨by rw [← h1.2]; exact h2.1, h2.2.trans h1.2⟩

end CircularBufferDynamic

namespace CircularBufferFixed

theorem pushAll_append (s : CircularBufferFixed) (as bs : List Int) :
    pushAll (as ++ bs) s = pushAll bs (pushAll as s) := by
  simp [pushAll, List.foldl_append]

theorem pushAll_singleton (s : CircularBufferFixed) (c : Int) :
    pushAll [c] s = s.push_back c := rfl

theorem liveList_of_head_zero (s : CircularBufferFixed) (h : s.WF)
    (h0 : s.m_head = 0) : s.liveList = s.m_buffer.take s.m_count := by
  obtain ⟨hN, hlen, hcnt, hhead, htail⟩ := h
  rw [← range_map_getD s.m_buffer s.m_count (by omega)]
  simp only [liveList]
  apply List.map_congr_left
  intro i hi
  have hic : i < s.m_count := List.mem_range.mp hi
  rw [h0, Nat.zero_add, Nat.mod_eq_of_lt (by omega)]

end CircularBufferFixed

namespace CircularBufferDynamic

theorem dyn_pushAll_append (s : CircularBufferDynamic) (as bs : List Int) :
    pushAll (as ++ bs) s = pushAll bs (pushAll as s) := by
  simp [pushAll, List.foldl_append]

theorem dyn_pushAll_singleton (s : CircularBufferDynamic) (c : Int) :
    pushAll [c] s = s.push_back c := rfl

end CircularBufferDynamic

/-- C1: the running-aggregate invariant `running_sum = sum of live elements`
fails on the code as claimed: `CircularBufferDynamic::clear` empties the
deque without resetting `m_sum`/`m_sum_squares`, so after
`push 1; reset; push 2` at capacity 2 the live elements are exactly `[2]`
(arithmetic sum 2) while `sum()` on this non-empty buffer returns the stale
running sum 3. -/
theorem C1_dynamic_clear_stale_running_sum :
    c1state.m_buffer = [2] ∧ c1state.m_buffer.sum = 2 ∧
      c1state.sum = some 3 ∧ c1state.sum ≠ some c1state.m_buffer.sum := by
  decide

/-- C2: with exactly one element pushed, `variance()` returns an empty
optional as claimed, but `standard_deviation()` does not: both stores
compute `sqrt(get_variance().value_or(0.))` behind only an emptiness guard,
so a single-element buffer yields the engaged value `0`, contradicting the
claim (and the function's own documentation). -/
theorem C2_stddev_engaged_on_single_element :
    c2fixed.size = 1 ∧ c2fixed.variance = none ∧
      c2fixed.standard_deviation = some 0 ∧
      c2fixed.standard_deviation ≠ none ∧
      c2dynamic.size = 1 ∧ c2dynamic.variance = none ∧
      c2dynamic.standard_deviation = some 0 := by
  decide

/-- C3: overwrite-on-full. Pushing into a full buffer evicts exactly the
oldest live element and no other (the live list becomes
`old live list minus its head, plus the new element`), for both stores; and
starting from empty, pushing `N + 1` items makes `top()` (and the value
returned by `top_pop()`) the 2nd pushed item. -/
theorem C3_overflow_evicts_exactly_oldest :
    (∀ (s : CircularBufferFixed) (x : Int), s.WF → s.m_count = s.N →
        (s.push_back x).liveList = s.liveList.drop 1 ++ [x]) ∧
    (∀ (d : CircularBufferDynamic) (x : Int),
        d.m_buffer.length = d.m_max_size →
        (d.push_back x).m_buffer = d.m_buffer.drop 1 ++ [x]) ∧
    (∀ (N : Nat) (buf xs : List Int), 0 < N → buf.length = N →
        xs.length = N + 1 →
        (CircularBufferFixed.pushAll xs
            (CircularBufferFixed.init N buf)).top = some (xs.getD 1 0) ∧
        ((CircularBufferFixed.pushAll xs
            (CircularBufferFixed.init N buf)).top_pop).1 = some (xs.getD 1 0) ∧
        (CircularBufferDynamic.pushAll xs
            (CircularBufferDynamic.init N)).top = some (xs.getD 1 0)) := by
  refine ⟨?_, ?_, ?_⟩
  · intro s x h hf
    have hp := CircularBufferFixed.push_back_spec s x h
    rw [hp.2.2, stepQ,
      if_pos (by rw [CircularBufferFixed.liveList_length]; omega)]
  · intro d x hf
    exact CircularBufferDynamic.push_back_full_buffer d x hf
  · intro N buf xs hN hlenbuf hxs
    have hsplit : xs.take N ++ [xs.getD N 0] = xs := take_append_getD xs N hxs
    have hdrop : (xs.take N).drop 1 ++ [xs.getD N 0] = xs.drop 1 :=
      drop_take_getD xs N hN hxs
    have hlen1 : 1 < xs.length := by omega
    have hwf0 := CircularBufferFixed.WF_init N buf hN hlenbuf
    have hmid := CircularBufferFixed.pushAll_spec (xs.take N)
      (CircularBufferFixed.init N buf) hwf0
      (by show 0 + (xs.take N).length ≤ N; rw [List.length_take]; omega)
    have hmidlive :
        (CircularBufferFixed.pushAll (xs.take N)
          (CircularBufferFixed.init N buf)).liveList = xs.take N := by
      rw [hmid.2.2, CircularBufferFixed.liveList_init]
      simp
    have hfull := CircularBufferFixed.push_back_spec
      (CircularBufferFixed.pushAll (xs.take N)
        (CircularBufferFixed.init N buf)) (xs.getD N 0) hmid.1
    have hfin : CircularBufferFixed.pushAll xs
          (CircularBufferFixed.init N buf) =
        (CircularBufferFixed.pushAll (xs.take N)
          (CircularBufferFixed.init N buf)).push_back (xs.getD N 0) := by
      have hstep : CircularBufferFixed.pushAll xs
            (CircularBufferFixed.init N buf) =
          CircularBufferFixed.pushAll (xs.take N ++ [xs.getD N 0])
            (CircularBufferFixed.init N buf) := by
        rw [hsplit]
      rw [hstep, CircularBufferFixed.pushAll_append,
        CircularBufferFixed.pushAll_singleton]
    have hcond :
        (CircularBufferFixed.pushAll (xs.take N)
            (CircularBufferFixed.init N buf)).liveList.length =
          (CircularBufferFixed.pushAll (xs.take N)
            (CircularBufferFixed.init N buf)).N := by
      rw [hmidlive, List.length_take, hmid.2.1]
      show min N xs.length = N
      omega
    have hfinlive :
        (CircularBufferFixed.pushAll xs
          (CircularBufferFixed.init N buf)).liveList = xs.drop 1 := by
      rw [hfin, hfull.2.2, stepQ, if_pos hcond, hmidlive]
      exact hdrop
    have hfinwf : (CircularBufferFixed.pushAll xs
        (CircularBufferFixed.init N buf)).WF := by
      rw [hfin]
      exact hfull.1
    refine ⟨?_, ?_, ?_⟩
    · show (CircularBufferFixed.pushAll xs
        (CircularBufferFixed.init N buf)).get_top = some (xs.getD 1 0)
      rw [CircularBufferFixed.get_top_spec _ hfinwf, hfinlive,
        head?_drop_one xs hlen1]
    · show ((CircularBufferFixed.pushAll xs
        (CircularBufferFixed.init N buf)).get_top_pop).1 = some (xs.getD 1 0)
      rw [(CircularBufferFixed.get_top_pop_spec _ hfinwf).1, hfinlive,
        head?_drop_one xs hlen1]
    · have hdmid := CircularBufferDynamic.pushAll_buffer (xs.take N)
        (CircularBufferDynamic.init N)
        (by show ([] : List Int).length + (xs.take N).length ≤ N
            rw [List.length_take]
            simp)
      have hdmidbuf :
          (CircularBufferDynamic.pushAll (xs.take N)
            (CircularBufferDynamic.init N)).m_buffer = xs.take N := by
        rw [hdmid.1]
        simp [CircularBufferDynamic.init]
      have hdfin : CircularBufferDynamic.pushAll xs
            (CircularBufferDynamic.init N) =
          (CircularBufferDynamic.pushAll (xs.take N)
            (CircularBufferDynamic.init N)).push_back (xs.getD N 0) := by
        have hstep : CircularBufferDynamic.pushAll xs
              (CircularBufferDynamic.init N) =
            CircularBufferDynamic.pushAll (xs.take N ++ [xs.getD N 0])
              (CircularBufferDynamic.init N) := by
          rw [hsplit]
        rw [hstep, CircularBufferDynamic.dyn_pushAll_append,
          CircularBufferDynamic.dyn_pushAll_singleton]
      have hdcond :
          (CircularBufferDynamic.pushAll (xs.take N)
              (CircularBufferDynamic.init N)).m_buffer.length =
            (CircularBufferDynamic.pushAll (xs.take N)
              (CircularBufferDynamic.init N)).m_max_size := by
        rw [hdmidbuf, List.length_take, hdmid.2]
        show min N xs.length = N
        omega
      have hdbuf :
          (CircularBufferDynamic.pushAll xs
            (CircularBufferDynamic.init N)).m_buffer = xs.drop 1 := by
        rw [hdfin, CircularBufferDynamic.push_back_full_buffer _ _ hdcond,
          hdmidbuf]
        exact hdrop
      show (CircularBufferDynamic.pushAll xs
        (CircularBufferDynamic.init N)).m_buffer.head? = some (xs.getD 1 0)
      rw [hdbuf, head?_drop_one xs hlen1]

/-- C3 witness: capacity 5, pushing 1, 2, 3, 4, 5 and then 6 makes
`top_pop()` return 2 (not 1). -/
theorem C3_witness :
    ((CircularBufferFixed.pushAll [1, 2, 3, 4, 5, 6]
      (CircularBufferFixed.init 5 [0, 0, 0, 0, 0])).top_pop).1 = some 2 := by
  have h := (C3_overflow_evicts_exactly_oldest.2.2 5 [0, 0, 0, 0, 0]
    [1, 2, 3, 4, 5, 6] (by decide) (by decide) (by decide)).2.1
  exact h

/-- C4 counterexample: in the fixed store reached by `push 1; push 2; pop`
at capacity 2, the live elements are exactly `[2]` (smallest and largest
live element 2), yet `minimum()` and `maximum()` both return 1: they scan
the raw storage prefix `[0, count)`, which here is the dead slot 0 holding
the popped value 1. -/
theorem C4_counterexample :
    c4state.minimum = some 1 ∧ c4state.maximum = some 1 ∧
      c4state.liveList = [2] ∧ c4state.liveList.min? = some 2 ∧
      c4state.liveList.max? = some 2 := by
  decide

/-- C4 (amended): on a well-formed fixed buffer, `minimum()`/`maximum()`
return an empty optional exactly when the buffer is empty, and they return
the smallest/largest live element whenever the live region starts at
storage slot 0 (`m_head = 0`, e.g. any state reached from empty by at most
`N` pushes and no pops); in general they scan the first `m_count` raw
storage slots, which may disagree with the live elements once the head has
moved. -/
theorem C4_minmax_amended :
    ∀ s : CircularBufferFixed, s.WF →
      (s.m_count = 0 → s.minimum = none ∧ s.maximum = none) ∧
      (s.m_head = 0 → s.minimum = s.liveList.min? ∧
        s.maximum = s.liveList.max?) := by
  intro s hs
  constructor
  · intro h0
    constructor <;>
      simp [CircularBufferFixed.minimum, CircularBufferFixed.get_min,
        CircularBufferFixed.maximum, CircularBufferFixed.get_max,
        CircularBufferFixed.is_empty, h0]
  · intro h0
    constructor
    · by_cases he : s.m_count = 0 <;>
        simp [CircularBufferFixed.minimum, CircularBufferFixed.get_min,
          CircularBufferFixed.is_empty, he,
          CircularBufferFixed.liveList_of_head_zero s hs h0]
    · by_cases he : s.m_count = 0 <;>
        simp [CircularBufferFixed.maximum, CircularBufferFixed.get_max,
          CircularBufferFixed.is_empty, he,
          CircularBufferFixed.liveList_of_head_zero s hs h0]

/-- C4 witness: at a concrete well-formed state with head at slot 0 the
amended theorem evaluates: minimum and maximum agree with the live
elements. -/
theorem C4_witness :
    c4good.minimum = c4good.liveList.min? ∧
      c4good.maximum = c4good.liveList.max? :=
  (C4_minmax_amended c4good (by decide)).2 rfl

/-- C5: FIFO order. Starting from an empty buffer of capacity N (fixed or
dynamic) and pushing any `xs` with `xs.length ≤ N`, the following
`xs.length` calls to `top_pop` return exactly the pushed values in push
order. -/
theorem C5_fifo_order :
    ∀ (N : Nat) (buf xs : List Int), 0 < N → buf.length = N →
      xs.length ≤ N →
      CircularBufferFixed.topPops
          (CircularBufferFixed.pushAll xs (CircularBufferFixed.init N buf))
          xs.length = xs.map some ∧
      CircularBufferDynamic.topPops
          (CircularBufferDynamic.pushAll xs (CircularBufferDynamic.init N))
          xs.length = xs.map some := by
  intro N buf xs hN hlen hxs
  constructor
  · have hwf0 := CircularBufferFixed.WF_init N buf hN hlen
    have hmid := CircularBufferFixed.pushAll_spec xs
      (CircularBufferFixed.init N buf) hwf0 (by show 0 + xs.length ≤ N; omega)
    have hlive :
        (CircularBufferFixed.pushAll xs
          (CircularBufferFixed.init N buf)).liveList = xs := by
      rw [hmid.2.2, CircularBufferFixed.liveList_init]
      simp
    have hcount :
        (CircularBufferFixed.pushAll xs
          (CircularBufferFixed.init N buf)).m_count = xs.length := by
      have hcong := congrArg List.length hlive
      rw [CircularBufferFixed.liveList_length] at hcong
      exact hcong
    rw [CircularBufferFixed.topPops_liveList xs.length _ hmid.1 hcount, hlive]
  · have hdm := CircularBufferDynamic.pushAll_buffer xs
      (CircularBufferDynamic.init N)
      (by show ([] : List Int).length + xs.length ≤ N; simp; omega)
    have hbuf :
        (CircularBufferDynamic.pushAll xs
          (CircularBufferDynamic.init N)).m_buffer = xs := by
      rw [hdm.1]
      simp [CircularBufferDynamic.init]
    rw [CircularBufferDynamic.topPops_buffer xs.length _ (by rw [hbuf]), hbuf]

/-- C5 witness: capacity 4, pushing 4, 5, 6 and popping three times returns
4, 5, 6 in order. -/
theorem C5_witness :
    CircularBufferFixed.topPops (CircularBufferFixed.pushAll [4, 5, 6]
      (CircularBufferFixed.init 4 [0, 0, 0, 0])) 3 =
      [some 4, some 5, some 6] :=
  (C5_fifo_order 4 [0, 0, 0, 0] [4, 5, 6] (by decide) (by decide)
    (by decide)).1

/-- C6: size bound invariant. For every capacity `N ≥ 1` and every sequence
of interface operations applied to a freshly constructed buffer, both the
fixed store and the dynamic store satisfy `0 ≤ size() ≤ N` afterwards (and
hence after every prefix, since the operation list is arbitrary). -/
theorem C6_size_bound :
    ∀ (N : Nat) (buf : List Int) (ops : List Op), 0 < N → buf.length = N →
      0 ≤ (CircularBufferFixed.applyOps
        (CircularBufferFixed.init N buf) ops).size ∧
      (CircularBufferFixed.applyOps
        (CircularBufferFixed.init N buf) ops).size ≤ N ∧
      0 ≤ (CircularBufferDynamic.applyOps
        (CircularBufferDynamic.init N) ops).size ∧
      (CircularBufferDynamic.applyOps
        (CircularBufferDynamic.init N) ops).size ≤ N := by
  intro N buf ops hN hlen
  refine ⟨Nat.zero_le _, ?_, Nat.zero_le _, ?_⟩
  · have h := CircularBufferFixed.applyOps_spec ops
      (CircularBufferFixed.init N buf)
      (CircularBufferFixed.WF_init N buf hN hlen)
    exact le_trans h.1.2.2.1 (le_of_eq h.2)
  · have h := CircularBufferDynamic.applyOps_size ops
      (CircularBufferDynamic.init N) (by show 0 < N; omega)
      (by show ([] : List Int).length ≤ N; simp)
    exact h.1

/-- C6 witness: a concrete overflowing and draining sequence at capacity 2
keeps the size within the bound. -/
theorem C6_witness :
    (CircularBufferFixed.applyOps (CircularBufferFixed.init 2 [0, 0])
      [.push 1, .push 2, .push 3, .top_pop, .reset]).size ≤ 2 :=
  (C6_size_bound 2 [0, 0] [.push 1, .push 2, .push 3, .top_pop, .reset]
    (by decide) (by decide)).2.1

/-- C7: round-trip copy. The copy constructor reproduces the complete state
(cursors, storage and aggregates) of the source buffer, so draining the
copy by any number of `top_pop` calls returns exactly the same value
sequence as draining the original, for both stores. -/
theorem C7_copy_round_trip :
    ∀ (s : CircularBufferFixed) (d : CircularBufferDynamic) (n : Nat),
      (CircularBufferFixed.copy s).topPops n = s.topPops n ∧
      (CircularBufferDynamic.copy d).topPops n = d.topPops n := by
  intro s d n
  constructor
  · have hc : CircularBufferFixed.copy s = s := by cases s; rfl
    rw [hc]
  · have hc : CircularBufferDynamic.copy d = d := by cases d; rfl
    rw [hc]

/-- C8: the facade with the sentinel zero capacity is not observationally
equivalent to `CircularBufferDynamic`: it is a separate vector-backed ring
implementation whose `reset` drains element by element (resetting the
running aggregates), while the dynamic store's `clear` leaves them stale.
After `push 1; reset; push 2` at capacity 1, `sum()` returns 2 on the
facade but 3 on `CircularBufferDynamic`. -/
theorem C8_facade_not_equivalent_to_dynamic :
    c8facade.sum = some 2 ∧ c8dynamic.sum = some 3 ∧
      c8facade.sum ≠ c8dynamic.sum := by
  decide

/-- C9: empty-buffer contract. On freshly constructed buffers of any
capacity (fixed store with arbitrary indeterminate initial storage, and
dynamic store), `empty()` is true, `size()` is 0, every statistic query
returns an empty optional, `pop()` returns false, and `top()` and
`top_pop()` return empty optionals. -/
theorem C9_empty_buffer_contract :
    ∀ (N c : Nat) (buf : List Int),
      (CircularBufferFixed.init N buf).empty = true ∧
      (CircularBufferFixed.init N buf).size = 0 ∧
      (CircularBufferFixed.init N buf).sum = none ∧
      (CircularBufferFixed.init N buf).mean = none ∧
      (CircularBufferFixed.init N buf).variance = none ∧
      (CircularBufferFixed.init N buf).standard_deviation = none ∧
      (CircularBufferFixed.init N buf).minimum = none ∧
      (CircularBufferFixed.init N buf).maximum = none ∧
      (CircularBufferFixed.init N buf).sorted = none ∧
      (CircularBufferFixed.init N buf).reverse_sorted = none ∧
      (CircularBufferFixed.init N buf).median = none ∧
      ((CircularBufferFixed.init N buf).pop).1 = false ∧
      (CircularBufferFixed.init N buf).top = none ∧
      ((CircularBufferFixed.init N buf).top_pop).1 = none ∧
      (CircularBufferDynamic.init c).empty = true ∧
      (CircularBufferDynamic.init c).size = 0 ∧
      (CircularBufferDynamic.init c).sum = none ∧
      (CircularBufferDynamic.init c).mean = none ∧
      (CircularBufferDynamic.init c).variance = none ∧
      (CircularBufferDynamic.init c).standard_deviation = none ∧
      (CircularBufferDynamic.init c).minimum = none ∧
      (CircularBufferDynamic.init c).maximum = none ∧
      (CircularBufferDynamic.init c).sorted = none ∧
      (CircularBufferDynamic.init c).reverse_sorted = none ∧
      (CircularBufferDynamic.init c).median = none ∧
      ((CircularBufferDynamic.init c).pop).1 = false ∧
      (CircularBufferDynamic.init c).top = none ∧
      ((CircularBufferDynamic.init c).top_pop).1 = none := by
  intro N c buf
  exact ⟨rfl, rfl, rfl, rfl, rfl, rfl, rfl, rfl, rfl, rfl, rfl, rfl, rfl,
    rfl, rfl, rfl, rfl, rfl, rfl, rfl, rfl, rfl, rfl, rfl, rfl, rfl, rfl,
    rfl⟩

/-- C10: frame property of a non-full push. On a well-formed fixed buffer
that is not full, `push(x)` writes `x` into exactly the slot at the old
tail position, leaves every other storage slot and the head cursor
unchanged, and modifies only the tail cursor, the count, and the running
aggregates. -/
theorem C10_push_frame :
    ∀ (s : CircularBufferFixed) (x : Int), s.WF → s.m_count < s.N →
      (s.push_back x).m_head = s.m_head ∧
      (s.push_back x).m_tail = (s.m_tail + 1) % s.N ∧
      (s.push_back x).m_count = s.m_count + 1 ∧
      (s.push_back x).m_sum = s.m_sum + x ∧
      (s.push_back x).m_sum_squares = s.m_sum_squares + x ^ 2 ∧
      (s.push_back x).m_buffer.getD s.m_tail 0 = x ∧
      ∀ i : Nat, i ≠ s.m_tail →
        (s.push_back x).m_buffer.getD i 0 = s.m_buffer.getD i 0 := by
  intro s x h hlt
  have htlt : s.m_tail < s.N := by
    obtain ⟨hN, _, _, _, htail⟩ := h
    rw [htail]
    exact Nat.mod_lt _ hN
  rw [CircularBufferFixed.push_back_eq_of_not_full s x (by omega)]
  refine ⟨rfl, rfl, rfl, rfl, rfl, ?_, ?_⟩
  · exact getD_set_self x (by rw [h.2.1]; omega)
  · intro i hi
    exact getD_set_ne x (Ne.symm hi)

/-- C10 witness: pushing 9 into a concrete capacity-3 buffer with live
elements 3, 4 writes slot 2, keeps slot 0 and the head, and bumps the
count. -/
theorem C10_witness :
    (c10state.push_back 9).m_buffer.getD 2 0 = 9 ∧
      (c10state.push_back 9).m_head = 0 ∧
      (c10state.push_back 9).m_buffer.getD 0 0 = 3 ∧
      (c10state.push_back 9).m_count = 3 := by
  have h := C10_push_frame c10state 9 (by decide) (by decide)
  exact ⟨h.2.2.2.2.2.1, h.1, h.2.2.2.2.2.2 0 (by decide), h.2.2.1⟩

end CircularBuffer
